import Mathlib

/-!
Shallow embedding of `RearrangementIndexer.py` (symgenoevolab/RearrangementIndexer).

The script reads one TSV file per genome (rows = genes), normalizes ALG
sub-labels, builds a chromosome × ALG contingency table, and for every ALG
observed computes a splitting parameter (SCHR), a combining parameter (CCHR)
and a rearrangement index RALG = 1 - SCHR * CCHR.  A batch step concatenates
the per-file series into three wide tables (rows = ALG labels, one column per
input file) and the command line entry point checks the argument count.

Counts are modelled with `Nat`, the derived parameters with `ℚ` (pandas uses
IEEE doubles; the spec claims are about the exact arithmetic identities, which
we state over `ℚ`).  pandas missing values (`pd.NA` / NaN cells produced by the
outer join) are modelled with `Option`.
-/

set_option maxHeartbeats 1000000

/-- One row of a coordinates TSV file after the column renaming on line 116 of
the script: `Index, Status, Chromosome, Start, End, ALG`.  Only `chromosome`
and `alg` are consumed by the metric computation. -/
structure GeneRecord where
  geneIndex : Int
  status : String
  chromosome : String
  gStart : Int
  gEnd : Int
  alg : String
  deriving DecidableEq

/-- The ALG normalizer: the dictionary passed to `df['ALG'].replace({...})` on
line 119.  `Series.replace` with a plain dict substitutes values that match a
key exactly (case sensitive) and leaves every other value unchanged. -/
def normalizeALG (s : String) : String :=
  if s = "A1a" then "A1"
  else if s = "A1b" then "A1"
  else if s = "Ea" then "E"
  else if s = "Eb" then "E"
  else if s = "Qa" then "Q"
  else if s = "Qb" then "Q"
  else if s = "Qc" then "Q"
  else if s = "Qd" then "Q"
  else s

/-- Applying the normalizer to the ALG column of one record. -/
def normalizeRecord (r : GeneRecord) : GeneRecord :=
  { r with alg := normalizeALG r.alg }

/-- The normalized DataFrame: the ALG column replacement applied to every row
(line 119 of the script). -/
def normDf (rows : List GeneRecord) : List GeneRecord :=
  rows.map normalizeRecord

/-- One cell of the contingency table
`df.groupby(["Chromosome", "ALG"]).size().unstack(fill_value=0)` (line 122):
the number of rows with the given chromosome and ALG. -/
def countCA (df : List GeneRecord) (c a : String) : Nat :=
  (df.filter (fun r => r.chromosome == c && r.alg == a)).length

/-- Lexicographic comparison of character lists by code point, the order in
which pandas sorts string group keys. -/
def charListLe : List Char → List Char → Bool
  | [], _ => true
  | _ :: _, [] => false
  | a :: as, b :: bs =>
    if a.toNat < b.toNat then true
    else if b.toNat < a.toNat then false
    else charListLe as bs

/-- Lexicographic string comparison by code point. -/
def strLe (a b : String) : Bool :=
  charListLe a.data b.data

/-- Insert a string into a sorted list, keeping the order. -/
def orderedInsertStr (a : String) : List String → List String
  | [] => [a]
  | b :: l => if strLe a b then a :: b :: l else b :: orderedInsertStr a l

/-- Insertion sort on strings with the pandas group-key order. -/
def sortStrings : List String → List String
  | [] => []
  | b :: l => orderedInsertStr b (sortStrings l)

/-- The row labels of the contingency table: the distinct chromosomes, in the
sorted order pandas `groupby` produces (group keys are sorted ascending). -/
def chromsOf (df : List GeneRecord) : List String :=
  sortStrings (df.map (fun r => r.chromosome)).dedup

/-- The column labels of the contingency table (`all_algs`, line 131): the
distinct ALG labels after normalization, in pandas' sorted group-key order. -/
def algsOf (df : List GeneRecord) : List String :=
  sortStrings (df.map (fun r => r.alg)).dedup

/-- `chrom_total_counts[c]` (line 125): the row sum
`chrom_alg_counts.sum(axis=1)`, i.e. the total gene count of chromosome `c`
summed over the table's ALG columns. -/
def chromTotal (df : List GeneRecord) (c : String) : Nat :=
  ((algsOf df).map (fun a => countCA df c a)).sum

/-- `chrom_alg_counts[a].sum()` (line 147): the column sum of the contingency
table, i.e. the genome-wide total gene count of ALG `a`. -/
def algTotal (df : List GeneRecord) (a : String) : Nat :=
  ((chromsOf df).map (fun c => countCA df c a)).sum

/-- pandas `idxmax(axis=0)` on one column: the first row label (in index
order) attaining the maximum of `f`; `none` on an empty index. -/
def idxmax (f : String → Nat) : List String → Option String
  | [] => none
  | c :: cs => some (cs.foldl (fun b x => if f b < f x then x else b) c)

/-- `chrom_most_genes[a]` (line 134): the row label of
`chrom_alg_counts.idxmax(axis=0)` for column `a` — the chromosome holding the
most genes of ALG `a`, ties broken by the first chromosome in table index
order. -/
def dominantChrom (df : List GeneRecord) (a : String) : Option String :=
  idxmax (fun c => countCA df c a) (chromsOf df)

/-- `proportion_on_chrom` for one ALG (lines 146-149): SCHR, the count on the
dominant chromosome divided by the ALG's total, guarded by the
`if alg in chrom_alg_counts.columns` test whose `else` assigns `pd.NA`. -/
def proportion_on_chrom (df : List GeneRecord) (a : String) : Option ℚ :=
  match dominantChrom df a with
  | none => none
  | some most =>
    if a ∈ algsOf df then
      some ((countCA df most a : ℚ) / (algTotal df a : ℚ))
    else none

/-- `total_proportion_on_chrom` for one ALG (lines 153-156): CCHR, the count
on the dominant chromosome divided by that chromosome's total, with the same
column-membership guard. -/
def total_proportion_on_chrom (df : List GeneRecord) (a : String) : Option ℚ :=
  match dominantChrom df a with
  | none => none
  | some most =>
    if a ∈ algsOf df then
      some ((countCA df most a : ℚ) / (chromTotal df most : ℚ))
    else none

/-- `rearrangement_index` for one ALG (lines 160-163):
`1 - (proportion_on_chrom * total_proportion_on_chrom)` when the column guard
holds, `pd.NA` otherwise. -/
def rearrangement_index (df : List GeneRecord) (a : String) : Option ℚ :=
  if a ∈ algsOf df then
    match proportion_on_chrom df a, total_proportion_on_chrom df a with
    | some p, some t => some (1 - p * t)
    | _, _ => none
  else none

/-- The three pandas Series built by `process_tsv_file` (lines 137-169),
each indexed by the ALGs of this genome. -/
structure FileResult where
  rearrangement : List (String × Option ℚ)
  splitting : List (String × Option ℚ)
  combining : List (String × Option ℚ)
  deriving DecidableEq

/-- `process_tsv_file` (lines 109-171) restricted to its pure core: normalize
the ALG column, then for each ALG of the genome compute the three metrics,
collecting them into three Series keyed by ALG. -/
def process_tsv_file (rows : List GeneRecord) : FileResult :=
  { rearrangement := (algsOf (normDf rows)).map (fun a => (a, rearrangement_index (normDf rows) a)),
    splitting := (algsOf (normDf rows)).map (fun a => (a, proportion_on_chrom (normDf rows) a)),
    combining := (algsOf (normDf rows)).map (fun a => (a, total_proportion_on_chrom (normDf rows) a)) }

/-- A wide output table: the accumulated row-label universe together with one
`(file name, per-ALG Series)` column per processed file, as produced by
repeated `pd.concat([df, series], axis=1)` (outer join on the index). -/
structure WideTable where
  rows : List String
  cols : List (String × List (String × Option ℚ))
  deriving DecidableEq

/-- The empty `pd.DataFrame()` the batch loop starts from (lines 178-180). -/
def emptyTable : WideTable :=
  { rows := [], cols := [] }

/-- Index union performed by the outer join: keep the old labels, append the
new Series' labels not already present. -/
def unionRows (old new : List String) : List String :=
  old ++ new.filter (fun a => decide (a ∉ old))

/-- `pd.concat([t, s], axis=1)` for one Series `s` named `name`: the row
universe grows to the union and the Series is appended as a new column. -/
def concatCol (t : WideTable) (name : String) (s : List (String × Option ℚ)) : WideTable :=
  { rows := unionRows t.rows (s.map Prod.fst), cols := t.cols ++ [(name, s)] }

/-- Look a key up in a Series; `none` means the label is absent from the
Series' index, `some v` returns the stored (possibly missing) value. -/
def seriesLookup (s : List (String × Option ℚ)) (a : String) : Option (Option ℚ) :=
  (s.find? (fun p => p.1 == a)).map Prod.snd

/-- One cell of a wide table: locate the column by file name, then the row by
ALG label; a label absent from that column's Series is the NaN padding the
outer join inserts, modelled as `none`. -/
def cell (t : WideTable) (a fname : String) : Option ℚ :=
  match t.cols.find? (fun p => p.1 == fname) with
  | none => none
  | some col => (seriesLookup col.2 a).join

/-- Folding one Series-producing function over the batch, used to describe the
three parallel folds of `main` one table at a time. -/
def concatAll (g : List GeneRecord → List (String × Option ℚ)) (t : WideTable)
    (files : List (String × List GeneRecord)) : WideTable :=
  files.foldl (fun acc p => concatCol acc p.1 (g p.2)) t

/-- The batch loop of `main` (lines 177-190): process every file and append
each of its three Series, labelled with the file's name, to the three output
tables. -/
def mainRun (files : List (String × List GeneRecord)) : WideTable × WideTable × WideTable :=
  files.foldl
    (fun acc p =>
      (concatCol acc.1 p.1 (process_tsv_file p.2).rearrangement,
       concatCol acc.2.1 p.1 (process_tsv_file p.2).splitting,
       concatCol acc.2.2 p.1 (process_tsv_file p.2).combining))
    (emptyTable, emptyTable, emptyTable)

/-- Observable outcome of one invocation of the script. -/
structure ScriptOutcome where
  exitCode : Nat
  usagePrinted : Bool
  outputs : Option (WideTable × WideTable × WideTable)
  deriving DecidableEq

/-- The `__main__` block (lines 204-211): `sys.argv` (script name included)
must have length 2, otherwise the usage line is printed and the process exits
with status 1 before any file is touched; with exactly one positional argument
`main` runs on the `.tsv` files of the directory. -/
def runScript (argv : List String) (dir : List (String × List GeneRecord)) : ScriptOutcome :=
  if argv.length ≠ 2 then
    { exitCode := 1, usagePrinted := true, outputs := none }
  else
    { exitCode := 0, usagePrinted := false,
      outputs := some (mainRun (dir.filter (fun p => p.1.endsWith ".tsv"))) }

/-- A gene row carrying only the fields the core consumes. -/
def mkRec (c a : String) : GeneRecord :=
  { geneIndex := 0, status := "Complete", chromosome := c, gStart := 0, gEnd := 0, alg := a }

/-- Concrete four-gene genome used as evaluation input: ALG `A` sits entirely
on `c1`, ALG `B` is split evenly between `c1` and `c2`. -/
def exRows : List GeneRecord :=
  [mkRec "c1" "A", mkRec "c1" "A", mkRec "c1" "B", mkRec "c2" "B"]

/-- A second concrete genome whose only ALG is `C`, disjoint from `exRows`. -/
def exRows2 : List GeneRecord :=
  [mkRec "s1" "C"]

/-- A single-file batch over `exRows`. -/
def exBatch : List (String × List GeneRecord) :=
  [("genome.tsv", exRows)]

/-- A two-file batch with distinct file names and disjoint ALG universes. -/
def exBatch2 : List (String × List GeneRecord) :=
  [("a.tsv", exRows), ("b.tsv", exRows2)]

/-! ## Helper lemmas -/

lemma orderedInsertStr_perm (b : String) (l : List String) :
    (orderedInsertStr b l).Perm (b :: l) := by
  induction l with
  | nil => simp [orderedInsertStr]
  | cons c l ih =>
    by_cases h : strLe b c = true
    · simp [orderedInsertStr, h]
    · simp only [orderedInsertStr, h, if_false, Bool.false_eq_true]
      exact (ih.cons c).trans (List.Perm.swap b c l)

lemma sortStrings_perm (l : List String) : (sortStrings l).Perm l := by
  induction l with
  | nil => simp [sortStrings]
  | cons b l ih =>
    have : sortStrings (b :: l) = orderedInsertStr b (sortStrings l) := rfl
    rw [this]
    exact (orderedInsertStr_perm b (sortStrings l)).trans (ih.cons b)

lemma mem_sortStrings {a : String} {l : List String} : a ∈ sortStrings l ↔ a ∈ l :=
  (sortStrings_perm l).mem_iff

lemma mem_chromsOf_iff {df : List GeneRecord} {c : String} :
    c ∈ chromsOf df ↔ ∃ r ∈ df, r.chromosome = c := by
  simp [chromsOf, mem_sortStrings, List.mem_dedup, List.mem_map]

lemma mem_algsOf_iff {df : List GeneRecord} {a : String} :
    a ∈ algsOf df ↔ ∃ r ∈ df, r.alg = a := by
  simp [algsOf, mem_sortStrings, List.mem_dedup, List.mem_map]

lemma countCA_pos_iff {df : List GeneRecord} {c a : String} :
    0 < countCA df c a ↔ ∃ r ∈ df, r.chromosome = c ∧ r.alg = a := by
  rw [countCA, ← List.countP_eq_length_filter, List.countP_pos_iff]
  simp

lemma countCA_le_algTotal {df : List GeneRecord} {c a : String} (hc : c ∈ chromsOf df) :
    countCA df c a ≤ algTotal df a :=
  List.le_sum_of_mem (List.mem_map_of_mem _ hc)

lemma countCA_le_chromTotal {df : List GeneRecord} {c a : String} (ha : a ∈ algsOf df) :
    countCA df c a ≤ chromTotal df c :=
  List.le_sum_of_mem (List.mem_map_of_mem _ ha)

lemma exists_pos_of_sum_pos {l : List Nat} (h : 0 < l.sum) : ∃ x ∈ l, 0 < x := by
  induction l with
  | nil => simp at h
  | cons x l ih =>
    simp only [List.sum_cons] at h
    by_cases hx : 0 < x
    · exact ⟨x, List.mem_cons_self x l, hx⟩
    · have hl : 0 < l.sum := by omega
      obtain ⟨y, hy, hypos⟩ := ih hl
      exact ⟨y, List.mem_cons_of_mem x hy, hypos⟩

lemma algTotal_pos_iff {df : List GeneRecord} {a : String} :
    0 < algTotal df a ↔ ∃ r ∈ df, r.alg = a := by
  constructor
  · intro h
    obtain ⟨x, hx, hxpos⟩ := exists_pos_of_sum_pos h
    obtain ⟨c, _, rfl⟩ := List.mem_map.mp hx
    obtain ⟨r, hr, _, hal⟩ := countCA_pos_iff.mp hxpos
    exact ⟨r, hr, hal⟩
  · rintro ⟨r, hr, rfl⟩
    have h1 : 0 < countCA df r.chromosome r.alg := countCA_pos_iff.mpr ⟨r, hr, rfl, rfl⟩
    have h2 : countCA df r.chromosome r.alg ≤ algTotal df r.alg :=
      countCA_le_algTotal (mem_chromsOf_iff.mpr ⟨r, hr, rfl⟩)
    omega

lemma mem_algsOf_iff_algTotal_pos {df : List GeneRecord} {a : String} :
    a ∈ algsOf df ↔ 0 < algTotal df a := by
  rw [mem_algsOf_iff, algTotal_pos_iff]

lemma foldlMax_spec (f : String → Nat) (l : List String) :
    ∀ b : String,
      (l.foldl (fun s x => if f s < f x then x else s) b = b ∧ ∀ x ∈ l, f x ≤ f b) ∨
      (∃ l1 m l2, l = l1 ++ m :: l2 ∧
        l.foldl (fun s x => if f s < f x then x else s) b = m ∧
        f b < f m ∧ (∀ y ∈ l1, f y < f m) ∧ (∀ y ∈ l2, f y ≤ f m)) := by
  induction l with
  | nil => intro b; exact Or.inl ⟨rfl, by simp⟩
  | cons x xs ih =>
    intro b
    by_cases h : f b < f x
    · have hfold : (x :: xs).foldl (fun s y => if f s < f y then y else s) b =
          xs.foldl (fun s y => if f s < f y then y else s) x := by
        simp [List.foldl_cons, if_pos h]
      rcases ih x with ⟨heq, hall⟩ | ⟨l1, m, l2, hxs, heq, hlt, h1, h2⟩
      · exact Or.inr ⟨[], x, xs, by simp, by rw [hfold, heq], h, by simp, hall⟩
      · refine Or.inr ⟨x :: l1, m, l2, by rw [hxs]; rfl, by rw [hfold, heq],
          lt_trans h hlt, ?_, h2⟩
        intro y hy
        rcases List.mem_cons.mp hy with rfl | hy
        · exact hlt
        · exact h1 y hy
    · have hfold : (x :: xs).foldl (fun s y => if f s < f y then y else s) b =
          xs.foldl (fun s y => if f s < f y then y else s) b := by
        simp [List.foldl_cons, if_neg h]
      rcases ih b with ⟨heq, hall⟩ | ⟨l1, m, l2, hxs, heq, hlt, h1, h2⟩
      · refine Or.inl ⟨by rw [hfold, heq], ?_⟩
        intro y hy
        rcases List.mem_cons.mp hy with rfl | hy
        · exact Nat.le_of_not_lt h
        · exact hall y hy
      · refine Or.inr ⟨x :: l1, m, l2, by rw [hxs]; rfl, by rw [hfold, heq], hlt, ?_, h2⟩
        intro y hy
        rcases List.mem_cons.mp hy with rfl | hy
        · exact lt_of_le_of_lt (Nat.le_of_not_lt h) hlt
        · exact h1 y hy

lemma idxmax_spec {f : String → Nat} {l : List String} {m : String}
    (h : idxmax f l = some m) :
    (∀ x ∈ l, f x ≤ f m) ∧ ∃ l1 l2, l = l1 ++ m :: l2 ∧ ∀ y ∈ l1, f y < f m := by
  cases l with
  | nil => exact absurd h (by simp [idxmax])
  | cons c cs =>
    have hm : cs.foldl (fun s x => if f s < f x then x else s) c = m := by
      simpa [idxmax] using h
    rcases foldlMax_spec f cs c with ⟨heq, hall⟩ | ⟨l1, m2, l2, hcs, heq, hlt, h1, h2⟩
    · rw [heq] at hm
      subst hm
      constructor
      · intro x hx
        rcases List.mem_cons.mp hx with rfl | hx
        · exact le_refl _
        · exact hall x hx
      · exact ⟨[], cs, rfl, by simp⟩
    · rw [heq] at hm
      subst hm
      constructor
      · intro x hx
        rcases List.mem_cons.mp hx with rfl | hx
        · exact le_of_lt hlt
        · rw [hcs] at hx
          rcases List.mem_append.mp hx with hx | hx
          · exact le_of_lt (h1 x hx)
          · rcases List.mem_cons.mp hx with rfl | hx
            · exact le_refl _
            · exact h2 x hx
      · refine ⟨c :: l1, l2, by rw [hcs]; rfl, ?_⟩
        intro y hy
        rcases List.mem_cons.mp hy with rfl | hy
        · exact hlt
        · exact h1 y hy

lemma idxmax_ne_none {f : String → Nat} {l : List String} (h : l ≠ []) :
    ∃ m, idxmax f l = some m := by
  cases l with
  | nil => exact absurd rfl h
  | cons c cs => exact ⟨_, rfl⟩

lemma metrics_spec (df : List GeneRecord) (a : String) (h : 0 < algTotal df a) :
    ∃ m : String, dominantChrom df a = some m ∧ m ∈ chromsOf df ∧
      (∀ c ∈ chromsOf df, countCA df c a ≤ countCA df m a) ∧
      (∃ l1 l2, chromsOf df = l1 ++ m :: l2 ∧ ∀ y ∈ l1, countCA df y a < countCA df m a) ∧
      0 < countCA df m a ∧ countCA df m a ≤ algTotal df a ∧
      countCA df m a ≤ chromTotal df m ∧
      proportion_on_chrom df a = some ((countCA df m a : ℚ) / (algTotal df a : ℚ)) ∧
      total_proportion_on_chrom df a = some ((countCA df m a : ℚ) / (chromTotal df m : ℚ)) ∧
      rearrangement_index df a =
        some (1 - ((countCA df m a : ℚ) / (algTotal df a : ℚ)) *
          ((countCA df m a : ℚ) / (chromTotal df m : ℚ))) := by
  obtain ⟨r, hr, hra⟩ := algTotal_pos_iff.mp h
  have hmem : a ∈ algsOf df := mem_algsOf_iff.mpr ⟨r, hr, hra⟩
  have hch : r.chromosome ∈ chromsOf df := mem_chromsOf_iff.mpr ⟨r, hr, rfl⟩
  obtain ⟨m, hm⟩ := idxmax_ne_none (f := fun c => countCA df c a) (List.ne_nil_of_mem hch)
  obtain ⟨hmax, l1, l2, hdecomp, hfirst⟩ := idxmax_spec hm
  have hdom : dominantChrom df a = some m := by
    simp only [dominantChrom]
    exact hm
  have hmmem : m ∈ chromsOf df := by
    rw [hdecomp]
    exact List.mem_append_right _ (List.mem_cons_self _ _)
  have hpos : 0 < countCA df m a := by
    have h1 := hmax r.chromosome hch
    have h0 : 0 < countCA df r.chromosome a := countCA_pos_iff.mpr ⟨r, hr, rfl, hra⟩
    omega
  have hle1 : countCA df m a ≤ algTotal df a := countCA_le_algTotal hmmem
  have hle2 : countCA df m a ≤ chromTotal df m := countCA_le_chromTotal hmem
  have hp : proportion_on_chrom df a = some ((countCA df m a : ℚ) / (algTotal df a : ℚ)) := by
    simp only [proportion_on_chrom]
    rw [hdom]
    simp [hmem]
  have ht : total_proportion_on_chrom df a =
      some ((countCA df m a : ℚ) / (chromTotal df m : ℚ)) := by
    simp only [total_proportion_on_chrom]
    rw [hdom]
    simp [hmem]
  refine ⟨m, hdom, hmmem, hmax, ⟨l1, l2, hdecomp, hfirst⟩, hpos, hle1, hle2, hp, ht, ?_⟩
  simp only [rearrangement_index, hp, ht]
  simp [hmem]

lemma ratio_pos_and_le_one {k n : Nat} (h1 : 0 < k) (h2 : k ≤ n) :
    0 < ((k : ℚ) / (n : ℚ)) ∧ ((k : ℚ) / (n : ℚ)) ≤ 1 := by
  have hn : 0 < (n : ℚ) := by exact_mod_cast lt_of_lt_of_le h1 h2
  have hk : 0 < (k : ℚ) := by exact_mod_cast h1
  exact ⟨div_pos hk hn, (div_le_one hn).mpr (by exact_mod_cast h2)⟩

lemma seriesLookup_map_of_mem {g : String → Option ℚ} {l : List String} {a : String}
    (h : a ∈ l) :
    seriesLookup (l.map (fun x => (x, g x))) a = some (g a) := by
  induction l with
  | nil => simp at h
  | cons x xs ih =>
    by_cases hx : x = a
    · subst hx
      simp [seriesLookup, List.find?]
    · have hmem : a ∈ xs := by
        rcases List.mem_cons.mp h with rfl | h2
        · exact absurd rfl hx
        · exact h2
      have : (x == a) = false := beq_eq_false_iff_ne.mpr hx
      simpa [seriesLookup, List.find?, this] using ih hmem

lemma seriesLookup_map_of_not_mem {g : String → Option ℚ} {l : List String} {a : String}
    (h : a ∉ l) :
    seriesLookup (l.map (fun x => (x, g x))) a = none := by
  induction l with
  | nil => simp [seriesLookup]
  | cons x xs ih =>
    have hx : x ≠ a := fun hxa => h (hxa ▸ List.mem_cons_self x xs)
    have hmem : a ∉ xs := fun h2 => h (List.mem_cons_of_mem x h2)
    have : (x == a) = false := beq_eq_false_iff_ne.mpr hx
    simpa [seriesLookup, List.find?, this] using ih hmem

/-! ## Claim theorems: per-file calculator -/

/-- Claim C1: for every ALG with `algTotal > 0` in a genome, the calculator
returns RALG exactly equal to `1 - SCHR * CCHR`, and SCHR, CCHR and RALG all
lie in the closed interval `[0, 1]`. -/
theorem c1_ralg_identity_and_range (rows : List GeneRecord) (a : String)
    (h : 0 < algTotal (normDf rows) a) :
    ∃ s c : ℚ,
      seriesLookup (process_tsv_file rows).splitting a = some (some s) ∧
      seriesLookup (process_tsv_file rows).combining a = some (some c) ∧
      seriesLookup (process_tsv_file rows).rearrangement a = some (some (1 - s * c)) ∧
      0 ≤ s ∧ s ≤ 1 ∧ 0 ≤ c ∧ c ≤ 1 ∧ 0 ≤ 1 - s * c ∧ 1 - s * c ≤ 1 := by
  obtain ⟨m, hdom, hmmem, hmax, hfst, hpos, hle1, hle2, hp, ht, hri⟩ :=
    metrics_spec (normDf rows) a h
  have hmem : a ∈ algsOf (normDf rows) := mem_algsOf_iff_algTotal_pos.mpr h
  obtain ⟨hs0, hs1⟩ := ratio_pos_and_le_one hpos hle1
  obtain ⟨hc0, hc1⟩ := ratio_pos_and_le_one hpos hle2
  refine ⟨(countCA (normDf rows) m a : ℚ) / (algTotal (normDf rows) a : ℚ),
    (countCA (normDf rows) m a : ℚ) / (chromTotal (normDf rows) m : ℚ), ?_, ?_, ?_,
    le_of_lt hs0, hs1, le_of_lt hc0, hc1, ?_, ?_⟩
  · simp only [process_tsv_file]
    rw [seriesLookup_map_of_mem hmem, hp]
  · simp only [process_tsv_file]
    rw [seriesLookup_map_of_mem hmem, ht]
  · simp only [process_tsv_file]
    rw [seriesLookup_map_of_mem hmem, hri]
  · have hsc1 : (countCA (normDf rows) m a : ℚ) / (algTotal (normDf rows) a : ℚ) *
        ((countCA (normDf rows) m a : ℚ) / (chromTotal (normDf rows) m : ℚ)) ≤ 1 := by
      calc (countCA (normDf rows) m a : ℚ) / (algTotal (normDf rows) a : ℚ) *
            ((countCA (normDf rows) m a : ℚ) / (chromTotal (normDf rows) m : ℚ)) ≤ 1 * 1 :=
          mul_le_mul hs1 hc1 (le_of_lt hc0) zero_le_one
        _ = 1 := one_mul 1
    linarith
  · have hsc0 : 0 < (countCA (normDf rows) m a : ℚ) / (algTotal (normDf rows) a : ℚ) *
        ((countCA (normDf rows) m a : ℚ) / (chromTotal (normDf rows) m : ℚ)) :=
      mul_pos hs0 hc0
    linarith

/-- Witness for C1 on the concrete genome `exRows` at ALG `A`. -/
theorem c1_ralg_identity_and_range_witness :
    ∃ s c : ℚ,
      seriesLookup (process_tsv_file exRows).splitting "A" = some (some s) ∧
      seriesLookup (process_tsv_file exRows).combining "A" = some (some c) ∧
      seriesLookup (process_tsv_file exRows).rearrangement "A" = some (some (1 - s * c)) ∧
      0 ≤ s ∧ s ≤ 1 ∧ 0 ≤ c ∧ c ≤ 1 ∧ 0 ≤ 1 - s * c ∧ 1 - s * c ≤ 1 :=
  c1_ralg_identity_and_range exRows "A" (by decide)

/-- Claim C2: for every ALG observed in a genome, the dominant chromosome is
the argmax over chromosomes of the contingency count for that ALG, ties broken
by the first chromosome in table iteration order, and the splitting parameter
is the dominant count divided by the ALG total. -/
theorem c2_dominant_argmax_and_splitting (rows : List GeneRecord) (a : String)
    (h : 0 < algTotal (normDf rows) a) :
    ∃ m : String, dominantChrom (normDf rows) a = some m ∧
      (∀ c ∈ chromsOf (normDf rows),
        countCA (normDf rows) c a ≤ countCA (normDf rows) m a) ∧
      (∃ l1 l2, chromsOf (normDf rows) = l1 ++ m :: l2 ∧
        ∀ c ∈ l1, countCA (normDf rows) c a < countCA (normDf rows) m a) ∧
      seriesLookup (process_tsv_file rows).splitting a =
        some (some ((countCA (normDf rows) m a : ℚ) / (algTotal (normDf rows) a : ℚ))) := by
  obtain ⟨m, hdom, hmmem, hmax, hfst, hpos, hle1, hle2, hp, ht, hri⟩ :=
    metrics_spec (normDf rows) a h
  have hmem : a ∈ algsOf (normDf rows) := mem_algsOf_iff_algTotal_pos.mpr h
  refine ⟨m, hdom, hmax, hfst, ?_⟩
  simp only [process_tsv_file]
  rw [seriesLookup_map_of_mem hmem, hp]

/-- Witness for C2 on `exRows` at ALG `B`, whose counts are tied between the
two chromosomes. -/
theorem c2_dominant_argmax_and_splitting_witness :
    ∃ m : String, dominantChrom (normDf exRows) "B" = some m ∧
      (∀ c ∈ chromsOf (normDf exRows),
        countCA (normDf exRows) c "B" ≤ countCA (normDf exRows) m "B") ∧
      (∃ l1 l2, chromsOf (normDf exRows) = l1 ++ m :: l2 ∧
        ∀ c ∈ l1, countCA (normDf exRows) c "B" < countCA (normDf exRows) m "B") ∧
      seriesLookup (process_tsv_file exRows).splitting "B" =
        some (some ((countCA (normDf exRows) m "B" : ℚ) /
          (algTotal (normDf exRows) "B" : ℚ))) :=
  c2_dominant_argmax_and_splitting exRows "B" (by decide)

/-- Claim C3: for every ALG observed in a genome, the combining parameter is
the dominant-chromosome count divided by the dominant chromosome's total gene
count (its contingency-table row sum over all ALGs). -/
theorem c3_combining_parameter (rows : List GeneRecord) (a : String)
    (h : 0 < algTotal (normDf rows) a) :
    ∃ m : String, dominantChrom (normDf rows) a = some m ∧
      chromTotal (normDf rows) m =
        (((algsOf (normDf rows)).map (fun b => countCA (normDf rows) m b)).sum) ∧
      seriesLookup (process_tsv_file rows).combining a =
        some (some ((countCA (normDf rows) m a : ℚ) / (chromTotal (normDf rows) m : ℚ))) := by
  obtain ⟨m, hdom, hmmem, hmax, hfst, hpos, hle1, hle2, hp, ht, hri⟩ :=
    metrics_spec (normDf rows) a h
  have hmem : a ∈ algsOf (normDf rows) := mem_algsOf_iff_algTotal_pos.mpr h
  refine ⟨m, hdom, rfl, ?_⟩
  simp only [process_tsv_file]
  rw [seriesLookup_map_of_mem hmem, ht]

/-- Witness for C3 on `exRows` at ALG `A`. -/
theorem c3_combining_parameter_witness :
    ∃ m : String, dominantChrom (normDf exRows) "A" = some m ∧
      chromTotal (normDf exRows) m =
        (((algsOf (normDf exRows)).map (fun b => countCA (normDf exRows) m b)).sum) ∧
      seriesLookup (process_tsv_file exRows).combining "A" =
        some (some ((countCA (normDf exRows) m "A" : ℚ) /
          (chromTotal (normDf exRows) m : ℚ))) :=
  c3_combining_parameter exRows "A" (by decide)

/-- Claim C9: every ALG iterated over by the per-file loop is a column of the
contingency table, so the `pd.NA` fallback branches are unreachable: all three
per-ALG values are defined numerics, and all three Series carry a defined
value at every ALG observed in the genome. -/
theorem c9_na_branches_unreachable (rows : List GeneRecord) (a : String)
    (h : a ∈ algsOf (normDf rows)) :
    (∃ v : ℚ, proportion_on_chrom (normDf rows) a = some v) ∧
    (∃ v : ℚ, total_proportion_on_chrom (normDf rows) a = some v) ∧
    (∃ v : ℚ, rearrangement_index (normDf rows) a = some v) ∧
    (∃ v : ℚ, seriesLookup (process_tsv_file rows).splitting a = some (some v)) ∧
    (∃ v : ℚ, seriesLookup (process_tsv_file rows).combining a = some (some v)) ∧
    (∃ v : ℚ, seriesLookup (process_tsv_file rows).rearrangement a = some (some v)) := by
  have hpos : 0 < algTotal (normDf rows) a := mem_algsOf_iff_algTotal_pos.mp h
  obtain ⟨m, hdom, hmmem, hmax, hfst, hcpos, hle1, hle2, hp, ht, hri⟩ :=
    metrics_spec (normDf rows) a hpos
  refine ⟨⟨_, hp⟩, ⟨_, ht⟩, ⟨_, hri⟩,
    ⟨(countCA (normDf rows) m a : ℚ) / (algTotal (normDf rows) a : ℚ), ?_⟩,
    ⟨(countCA (normDf rows) m a : ℚ) / (chromTotal (normDf rows) m : ℚ), ?_⟩,
    ⟨1 - (countCA (normDf rows) m a : ℚ) / (algTotal (normDf rows) a : ℚ) *
      ((countCA (normDf rows) m a : ℚ) / (chromTotal (normDf rows) m : ℚ)), ?_⟩⟩
  · simp only [process_tsv_file]
    rw [seriesLookup_map_of_mem h, hp]
  · simp only [process_tsv_file]
    rw [seriesLookup_map_of_mem h, ht]
  · simp only [process_tsv_file]
    rw [seriesLookup_map_of_mem h, hri]

/-- Witness for C9 on `exRows` at ALG `B`. -/
theorem c9_na_branches_unreachable_witness :
    (∃ v : ℚ, proportion_on_chrom (normDf exRows) "B" = some v) ∧
    (∃ v : ℚ, total_proportion_on_chrom (normDf exRows) "B" = some v) ∧
    (∃ v : ℚ, rearrangement_index (normDf exRows) "B" = some v) ∧
    (∃ v : ℚ, seriesLookup (process_tsv_file exRows).splitting "B" = some (some v)) ∧
    (∃ v : ℚ, seriesLookup (process_tsv_file exRows).combining "B" = some (some v)) ∧
    (∃ v : ℚ, seriesLookup (process_tsv_file exRows).rearrangement "B" = some (some v)) :=
  c9_na_branches_unreachable exRows "B" (by decide)

/-- Claim C10: for every ALG actually observed in a genome the dominant count
is at least one gene, hence SCHR and CCHR are strictly positive and RALG is
strictly below 1. -/
theorem c10_ralg_strictly_below_one (rows : List GeneRecord) (a : String)
    (h : 0 < algTotal (normDf rows) a) :
    ∃ s c : ℚ,
      seriesLookup (process_tsv_file rows).splitting a = some (some s) ∧
      seriesLookup (process_tsv_file rows).combining a = some (some c) ∧
      seriesLookup (process_tsv_file rows).rearrangement a = some (some (1 - s * c)) ∧
      0 < s ∧ 0 < c ∧ 1 - s * c < 1 := by
  obtain ⟨m, hdom, hmmem, hmax, hfst, hpos, hle1, hle2, hp, ht, hri⟩ :=
    metrics_spec (normDf rows) a h
  have hmem : a ∈ algsOf (normDf rows) := mem_algsOf_iff_algTotal_pos.mpr h
  obtain ⟨hs0, hs1⟩ := ratio_pos_and_le_one hpos hle1
  obtain ⟨hc0, hc1⟩ := ratio_pos_and_le_one hpos hle2
  refine ⟨(countCA (normDf rows) m a : ℚ) / (algTotal (normDf rows) a : ℚ),
    (countCA (normDf rows) m a : ℚ) / (chromTotal (normDf rows) m : ℚ), ?_, ?_, ?_,
    hs0, hc0, ?_⟩
  · simp only [process_tsv_file]
    rw [seriesLookup_map_of_mem hmem, hp]
  · simp only [process_tsv_file]
    rw [seriesLookup_map_of_mem hmem, ht]
  · simp only [process_tsv_file]
    rw [seriesLookup_map_of_mem hmem, hri]
  · have hsc0 : 0 < (countCA (normDf rows) m a : ℚ) / (algTotal (normDf rows) a : ℚ) *
        ((countCA (normDf rows) m a : ℚ) / (chromTotal (normDf rows) m : ℚ)) :=
      mul_pos hs0 hc0
    linarith

/-- Witness for C10 on `exRows` at ALG `B`. -/
theorem c10_ralg_strictly_below_one_witness :
    ∃ s c : ℚ,
      seriesLookup (process_tsv_file exRows).splitting "B" = some (some s) ∧
      seriesLookup (process_tsv_file exRows).combining "B" = some (some c) ∧
      seriesLookup (process_tsv_file exRows).rearrangement "B" = some (some (1 - s * c)) ∧
      0 < s ∧ 0 < c ∧ 1 - s * c < 1 :=
  c10_ralg_strictly_below_one exRows "B" (by decide)

/-! ## Claim C4: the ALG normalizer -/

lemma normalizeALG_of_not_mem (s : String)
    (h : s ∉ (["A1a", "A1b", "Ea", "Eb", "Qa", "Qb", "Qc", "Qd"] : List String)) :
    normalizeALG s = s := by
  simp only [List.mem_cons, List.not_mem_nil, or_false] at h
  push_neg at h
  obtain ⟨h1, h2, h3, h4, h5, h6, h7, h8⟩ := h
  simp [normalizeALG, h1, h2, h3, h4, h5, h6, h7, h8]

lemma normalizeALG_idem (s : String) :
    normalizeALG (normalizeALG s) = normalizeALG s := by
  by_cases h : s ∈ (["A1a", "A1b", "Ea", "Eb", "Qa", "Qb", "Qc", "Qd"] : List String)
  · simp only [List.mem_cons, List.not_mem_nil, or_false] at h
    rcases h with rfl | rfl | rfl | rfl | rfl | rfl | rfl | rfl <;> decide
  · rw [normalizeALG_of_not_mem s h]
    exact normalizeALG_of_not_mem s h

/-- Claim C4: the normalizer maps the eight sub-labels `A1a, A1b, Ea, Eb, Qa,
Qb, Qc, Qd` to `A1`, `E`, `Q` by exact case-sensitive match, returns every
other label (the canonical outputs included) unchanged without error, and is
idempotent. -/
theorem c4_normalizer_table_and_idempotence (s : String) :
    normalizeALG "A1a" = "A1" ∧ normalizeALG "A1b" = "A1" ∧
    normalizeALG "Ea" = "E" ∧ normalizeALG "Eb" = "E" ∧
    normalizeALG "Qa" = "Q" ∧ normalizeALG "Qb" = "Q" ∧
    normalizeALG "Qc" = "Q" ∧ normalizeALG "Qd" = "Q" ∧
    (s ∉ (["A1a", "A1b", "Ea", "Eb", "Qa", "Qb", "Qc", "Qd"] : List String) →
      normalizeALG s = s) ∧
    normalizeALG (normalizeALG s) = normalizeALG s :=
  ⟨by decide, by decide, by decide, by decide, by decide, by decide, by decide, by decide,
    normalizeALG_of_not_mem s, normalizeALG_idem s⟩

/-- Witness for C4: the unknown label `B2` and the canonical label `Q` pass
through the normalizer unchanged. -/
theorem c4_normalizer_table_and_idempotence_witness :
    normalizeALG "B2" = "B2" ∧ normalizeALG "Q" = "Q" :=
  ⟨(c4_normalizer_table_and_idempotence "B2").2.2.2.2.2.2.2.2.1 (by decide),
    (c4_normalizer_table_and_idempotence "Q").2.2.2.2.2.2.2.2.1 (by decide)⟩

/-! ## Batch aggregation lemmas -/

lemma mem_unionRows {a : String} {old new : List String} :
    a ∈ unionRows old new ↔ a ∈ old ∨ a ∈ new := by
  by_cases h : a ∈ old
  · simp [unionRows, h]
  · simp [unionRows, List.mem_filter, h]

lemma concatAll_cols (g : List GeneRecord → List (String × Option ℚ))
    (files : List (String × List GeneRecord)) :
    ∀ t : WideTable,
      (concatAll g t files).cols = t.cols ++ files.map (fun p => (p.1, g p.2)) := by
  induction files with
  | nil => intro t; simp [concatAll]
  | cons p ps ih =>
    intro t
    have h1 : concatAll g t (p :: ps) = concatAll g (concatCol t p.1 (g p.2)) ps := rfl
    rw [h1, ih]
    simp [concatCol]

lemma mem_concatAll_rows (g : List GeneRecord → List (String × Option ℚ))
    (files : List (String × List GeneRecord)) :
    ∀ (t : WideTable) (a : String),
      a ∈ (concatAll g t files).rows ↔
        a ∈ t.rows ∨ ∃ p ∈ files, a ∈ (g p.2).map Prod.fst := by
  induction files with
  | nil => intro t a; simp [concatAll]
  | cons p ps ih =>
    intro t a
    have h1 : concatAll g t (p :: ps) = concatAll g (concatCol t p.1 (g p.2)) ps := rfl
    rw [h1, ih]
    simp only [concatCol, mem_unionRows, List.exists_mem_cons_iff]
    tauto

lemma find?_map_fst (g : List GeneRecord → List (String × Option ℚ))
    (files : List (String × List GeneRecord)) (hnd : (files.map Prod.fst).Nodup)
    {p : String × List GeneRecord} (hp : p ∈ files) :
    (files.map (fun q => (q.1, g q.2))).find? (fun x => x.1 == p.1) = some (p.1, g p.2) := by
  induction files with
  | nil => simp at hp
  | cons q qs ih =>
    simp only [List.map_cons, List.nodup_cons] at hnd
    obtain ⟨hq, hnd2⟩ := hnd
    rcases List.mem_cons.mp hp with rfl | hp2
    · simp [List.find?]
    · have hne : q.1 ≠ p.1 := by
        intro he
        exact hq (he ▸ List.mem_map_of_mem Prod.fst hp2)
      have hbeq : (q.1 == p.1) = false := beq_eq_false_iff_ne.mpr hne
      simp only [List.map_cons, List.find?, hbeq]
      exact ih hnd2 hp2

lemma cell_concatAll (g : List GeneRecord → List (String × Option ℚ))
    (files : List (String × List GeneRecord)) (hnd : (files.map Prod.fst).Nodup)
    {p : String × List GeneRecord} (hp : p ∈ files) (a : String) :
    cell (concatAll g emptyTable files) a p.1 = (seriesLookup (g p.2) a).join := by
  have hcols : (concatAll g emptyTable files).cols = files.map (fun q => (q.1, g q.2)) := by
    rw [concatAll_cols]
    rfl
  simp only [cell, hcols, find?_map_fst g files hnd hp]

lemma mainRun_eq_concatAll (files : List (String × List GeneRecord)) :
    mainRun files =
      (concatAll (fun rs => (process_tsv_file rs).rearrangement) emptyTable files,
       concatAll (fun rs => (process_tsv_file rs).splitting) emptyTable files,
       concatAll (fun rs => (process_tsv_file rs).combining) emptyTable files) := by
  suffices h : ∀ (fs : List (String × List GeneRecord)) (t1 t2 t3 : WideTable),
      fs.foldl (fun acc p =>
        (concatCol acc.1 p.1 (process_tsv_file p.2).rearrangement,
         concatCol acc.2.1 p.1 (process_tsv_file p.2).splitting,
         concatCol acc.2.2 p.1 (process_tsv_file p.2).combining)) (t1, t2, t3) =
      (concatAll (fun rs => (process_tsv_file rs).rearrangement) t1 fs,
       concatAll (fun rs => (process_tsv_file rs).splitting) t2 fs,
       concatAll (fun rs => (process_tsv_file rs).combining) t3 fs) by
    exact h files emptyTable emptyTable emptyTable
  intro fs
  induction fs with
  | nil => intro t1 t2 t3; rfl
  | cons p ps ih => intro t1 t2 t3; exact ih _ _ _

lemma map_fst_pair (g : String → Option ℚ) (l : List String) :
    (l.map (fun a => (a, g a))).map Prod.fst = l := by
  induction l with
  | nil => rfl
  | cons x xs ih => simp only [List.map_cons, ih]

lemma series_fst_rearrangement (rows : List GeneRecord) :
    (process_tsv_file rows).rearrangement.map Prod.fst = algsOf (normDf rows) := by
  simp only [process_tsv_file]
  exact map_fst_pair _ _

lemma series_fst_splitting (rows : List GeneRecord) :
    (process_tsv_file rows).splitting.map Prod.fst = algsOf (normDf rows) := by
  simp only [process_tsv_file]
  exact map_fst_pair _ _

lemma series_fst_combining (rows : List GeneRecord) :
    (process_tsv_file rows).combining.map Prod.fst = algsOf (normDf rows) := by
  simp only [process_tsv_file]
  exact map_fst_pair _ _

/-! ## Claim theorems: batch aggregation and command line -/

/-- Claim C5: after a batch run, the row set of each of the three output
tables is exactly the union of the canonical ALGs observed across all
processed files, and every (genome, ALG) cell whose ALG is absent from that
genome's records is a null/missing cell (`none`), never a zero and never a
fault. -/
theorem c5_row_union_and_null_cells (files : List (String × List GeneRecord))
    (hnd : (files.map Prod.fst).Nodup) :
    (∀ a : String,
      (a ∈ (mainRun files).1.rows ↔ ∃ p ∈ files, a ∈ algsOf (normDf p.2)) ∧
      (a ∈ (mainRun files).2.1.rows ↔ ∃ p ∈ files, a ∈ algsOf (normDf p.2)) ∧
      (a ∈ (mainRun files).2.2.rows ↔ ∃ p ∈ files, a ∈ algsOf (normDf p.2))) ∧
    (∀ p ∈ files, ∀ a : String, a ∉ algsOf (normDf p.2) →
      cell (mainRun files).1 a p.1 = none ∧
      cell (mainRun files).2.1 a p.1 = none ∧
      cell (mainRun files).2.2 a p.1 = none) := by
  rw [mainRun_eq_concatAll]
  constructor
  · intro a
    refine ⟨?_, ?_, ?_⟩
    · rw [mem_concatAll_rows]
      simp [emptyTable, series_fst_rearrangement]
    · rw [mem_concatAll_rows]
      simp [emptyTable, series_fst_splitting]
    · rw [mem_concatAll_rows]
      simp [emptyTable, series_fst_combining]
  · intro p hp a ha
    refine ⟨?_, ?_, ?_⟩
    · rw [cell_concatAll _ files hnd hp a]
      simp only [process_tsv_file]
      rw [seriesLookup_map_of_not_mem ha]
      rfl
    · rw [cell_concatAll _ files hnd hp a]
      simp only [process_tsv_file]
      rw [seriesLookup_map_of_not_mem ha]
      rfl
    · rw [cell_concatAll _ files hnd hp a]
      simp only [process_tsv_file]
      rw [seriesLookup_map_of_not_mem ha]
      rfl

/-- Witness for C5 on a two-file batch with disjoint ALG universes. -/
theorem c5_row_union_and_null_cells_witness :
    (∀ a : String,
      (a ∈ (mainRun exBatch2).1.rows ↔ ∃ p ∈ exBatch2, a ∈ algsOf (normDf p.2)) ∧
      (a ∈ (mainRun exBatch2).2.1.rows ↔ ∃ p ∈ exBatch2, a ∈ algsOf (normDf p.2)) ∧
      (a ∈ (mainRun exBatch2).2.2.rows ↔ ∃ p ∈ exBatch2, a ∈ algsOf (normDf p.2))) ∧
    (∀ p ∈ exBatch2, ∀ a : String, a ∉ algsOf (normDf p.2) →
      cell (mainRun exBatch2).1 a p.1 = none ∧
      cell (mainRun exBatch2).2.1 a p.1 = none ∧
      cell (mainRun exBatch2).2.2 a p.1 = none) :=
  c5_row_union_and_null_cells exBatch2 (by decide)

/-- Claim C7: removing one input file from a batch leaves every remaining
file's column in all three output tables numerically unchanged — a genome's
column depends only on that genome's own records. -/
theorem c7_column_independence (pre post : List (String × List GeneRecord))
    (f : String × List GeneRecord)
    (hnd : ((pre ++ f :: post).map Prod.fst).Nodup)
    (p : String × List GeneRecord) (hp : p ∈ pre ++ post) (a : String) :
    cell (mainRun (pre ++ post)).1 a p.1 = cell (mainRun (pre ++ f :: post)).1 a p.1 ∧
    cell (mainRun (pre ++ post)).2.1 a p.1 = cell (mainRun (pre ++ f :: post)).2.1 a p.1 ∧
    cell (mainRun (pre ++ post)).2.2 a p.1 = cell (mainRun (pre ++ f :: post)).2.2 a p.1 := by
  have hsub : ((pre ++ post).map Prod.fst).Sublist ((pre ++ f :: post).map Prod.fst) :=
    ((List.sublist_cons_self f post).append_left pre).map Prod.fst
  have hnd2 : ((pre ++ post).map Prod.fst).Nodup := hnd.sublist hsub
  have hp2 : p ∈ pre ++ f :: post := by
    rcases List.mem_append.mp hp with h1 | h1
    · exact List.mem_append_left _ h1
    · exact List.mem_append_right _ (List.mem_cons_of_mem f h1)
  rw [mainRun_eq_concatAll, mainRun_eq_concatAll]
  refine ⟨?_, ?_, ?_⟩
  · rw [cell_concatAll _ _ hnd2 hp a, cell_concatAll _ _ hnd hp2 a]
  · rw [cell_concatAll _ _ hnd2 hp a, cell_concatAll _ _ hnd hp2 a]
  · rw [cell_concatAll _ _ hnd2 hp a, cell_concatAll _ _ hnd hp2 a]

/-- Witness for C7: dropping the second file of the two-file batch leaves the
first file's `A` cells unchanged. -/
theorem c7_column_independence_witness :
    cell (mainRun ([("a.tsv", exRows)] ++ [])).1 "A" "a.tsv" =
      cell (mainRun ([("a.tsv", exRows)] ++ ("b.tsv", exRows2) :: [])).1 "A" "a.tsv" ∧
    cell (mainRun ([("a.tsv", exRows)] ++ [])).2.1 "A" "a.tsv" =
      cell (mainRun ([("a.tsv", exRows)] ++ ("b.tsv", exRows2) :: [])).2.1 "A" "a.tsv" ∧
    cell (mainRun ([("a.tsv", exRows)] ++ [])).2.2 "A" "a.tsv" =
      cell (mainRun ([("a.tsv", exRows)] ++ ("b.tsv", exRows2) :: [])).2.2 "A" "a.tsv" :=
  c7_column_independence [("a.tsv", exRows)] [] ("b.tsv", exRows2) (by decide)
    ("a.tsv", exRows) (by decide) "A"

/-- Claim C8: invoked with zero positional arguments or with two or more, the
script prints the usage line, exits with status 1, and produces no output
tables (no file is processed).  `argv` includes the script name, so the
positional-argument count is `argv.length - 1`. -/
theorem c8_usage_error_exit (argv : List String) (dir : List (String × List GeneRecord))
    (h : argv.length - 1 = 0 ∨ 2 ≤ argv.length - 1) :
    runScript argv dir = { exitCode := 1, usagePrinted := true, outputs := none } := by
  have hne : argv.length ≠ 2 := by omega
  simp [runScript, hne]

/-- Witness for C8: zero positional arguments and two positional arguments
both produce the usage outcome. -/
theorem c8_usage_error_exit_witness :
    runScript ["RearrangementIndexer.py"] exBatch2 =
      { exitCode := 1, usagePrinted := true, outputs := none } ∧
    runScript ["RearrangementIndexer.py", "dir1", "dir2"] exBatch2 =
      { exitCode := 1, usagePrinted := true, outputs := none } :=
  ⟨c8_usage_error_exit ["RearrangementIndexer.py"] exBatch2 (by decide),
    c8_usage_error_exit ["RearrangementIndexer.py", "dir1", "dir2"] exBatch2 (by decide)⟩

/-- Claim C6 evaluation: on the concrete single-file batch `exBatch` the
program's three output tables hold exactly the per-ALG values RALG, SCHR and
CCHR of that genome; the per-genome mean of RALG, `(1/3 + 5/6)/2 = 7/12`,
appears in no cell of any table.  The batch loop of `main` computes and writes
only the three per-ALG tables and never the per-genome mean. -/
theorem c6_per_genome_mean_never_output :
    (mainRun exBatch).1.rows = ["A", "B"] ∧
    (mainRun exBatch).2.1.rows = ["A", "B"] ∧
    (mainRun exBatch).2.2.rows = ["A", "B"] ∧
    cell (mainRun exBatch).1 "A" "genome.tsv" = some (1/3 : ℚ) ∧
    cell (mainRun exBatch).1 "B" "genome.tsv" = some (5/6 : ℚ) ∧
    cell (mainRun exBatch).2.1 "A" "genome.tsv" = some (1 : ℚ) ∧
    cell (mainRun exBatch).2.1 "B" "genome.tsv" = some (1/2 : ℚ) ∧
    cell (mainRun exBatch).2.2 "A" "genome.tsv" = some (2/3 : ℚ) ∧
    cell (mainRun exBatch).2.2 "B" "genome.tsv" = some (1/3 : ℚ) ∧
    ((1 : ℚ)/3 + 5/6) / 2 = 7/12 ∧
    cell (mainRun exBatch).1 "A" "genome.tsv" ≠ some (7/12 : ℚ) ∧
    cell (mainRun exBatch).1 "B" "genome.tsv" ≠ some (7/12 : ℚ) ∧
    cell (mainRun exBatch).2.1 "A" "genome.tsv" ≠ some (7/12 : ℚ) ∧
    cell (mainRun exBatch).2.1 "B" "genome.tsv" ≠ some (7/12 : ℚ) ∧
    cell (mainRun exBatch).2.2 "A" "genome.tsv" ≠ some (7/12 : ℚ) ∧
    cell (mainRun exBatch).2.2 "B" "genome.tsv" ≠ some (7/12 : ℚ) := by
  norm_num +decide [cell, mainRun, exBatch, concatCol, emptyTable, unionRows, seriesLookup,
    process_tsv_file, rearrangement_index, proportion_on_chrom, total_proportion_on_chrom,
    dominantChrom, idxmax, chromsOf, algsOf, normDf, exRows, mkRec, normalizeRecord,
    normalizeALG, countCA, algTotal, chromTotal, sortStrings, orderedInsertStr, strLe,
    charListLe, List.dedup, List.find?]
  norm_num [show (("A" : String) == "B") = false from by decide,
    show (("B" : String) == "A") = false from by decide]

example : algsOf (normDf exRows) = ["A", "B"] := by decide
example : chromsOf (normDf exRows) = ["c1", "c2"] := by decide
example : dominantChrom (normDf exRows) "B" = some "c1" := by decide
example : countCA (normDf exRows) "c1" "A" = 2 ∧ countCA (normDf exRows) "c1" "B" = 1 ∧
    countCA (normDf exRows) "c2" "B" = 1 ∧ algTotal (normDf exRows) "A" = 2 ∧
    algTotal (normDf exRows) "B" = 2 ∧ chromTotal (normDf exRows) "c1" = 3 ∧
    chromTotal (normDf exRows) "c2" = 1 := by decide
